import Mathlib

/-!
Verification of the 不動産坪単価 (real-estate unit-price) browser extension,
modelled from the second content script in src/unnamed/part_000 (the
four-site version: SUUMO / REHOUSE / ATHOME / HOMES).

Modelling conventions:
* JS numbers are modelled as exact rationals (ℚ).  Every concrete value the
  claims mention is far from any rounding boundary, so the double/rational
  gap is immaterial for the statements proved here.
* `Math.round` is `mathRound`: floor (x + 1/2), JS round-half-toward-+∞.
* The literal 3.3058 is the rational 33058/10000.
* `extractNumber` (source lines 615-658) returns `ExtractResult`:
  `null` for JS null, `nan` for JS NaN (a value of type number), or `num q`.
* The regexes of `extractNumber` are hand-compiled scanners over `List Char`.
  For each regex of the source a leftmost-match scan with greedy groups is
  implemented; for these particular patterns greedy matching without
  backtracking coincides with full regex backtracking, because every
  shortened group leaves a digit or a dot in front of the required unit
  character, which can never match it.
* JS `\s` is `jsSpace`, the exact WhiteSpace/LineTerminator set.
-/

/-- Result of the numeric text extractor: JS `null`, JS `NaN`, or a number. -/
inductive ExtractResult where
  | null : ExtractResult
  | nan : ExtractResult
  | num : ℚ → ExtractResult
deriving DecidableEq, Repr

/-- JS `\s` character class (ECMA WhiteSpace ∪ LineTerminator). -/
def jsSpace (c : Char) : Bool :=
  c == ' ' || c == '\t' || c == '\n' || c == '\r' ||
  c.val == 0x0b || c.val == 0x0c || c.val == 0xa0 || c.val == 0x1680 ||
  (0x2000 ≤ c.val && c.val ≤ 0x200a) ||
  c.val == 0x2028 || c.val == 0x2029 || c.val == 0x202f ||
  c.val == 0x205f || c.val == 0x3000 || c.val == 0xfeff

/-- Value of a digit string, e.g. "107" ↦ 107. -/
def digitsToNat (ds : List Char) : ℕ :=
  ds.foldl (fun n c => 10 * n + (c.toNat - 48)) 0

/-- Value of a digit string read as a decimal fraction, e.g. "19" ↦ 19/100. -/
def fracVal (ds : List Char) : ℚ :=
  (digitsToNat ds : ℚ) / ((10 : ℚ) ^ ds.length)

/-- `List.drop` the remainder after the first occurrence of `needle`
(leftmost-match of a literal); `none` when `needle` never occurs. -/
def dropAfterFirst (needle : List Char) : List Char → Option (List Char)
  | [] => none
  | c :: rest =>
    if needle.isPrefixOf (c :: rest) then some (List.drop needle.length (c :: rest))
    else dropAfterFirst needle rest

/-- JS `String.prototype.includes` for a nonempty literal. -/
def containsSub (needle hay : List Char) : Bool :=
  (dropAfterFirst needle hay).isSome

/-- Value of a regex capture of shape `\d+(?:\.\d+)?` starting at `cs`
(first char known to be a digit); greedy: the fractional part needs at
least one digit. -/
def captNum (cs : List Char) : ℚ :=
  match cs.dropWhile Char.isDigit with
  | '.' :: r2 =>
    if (r2.takeWhile Char.isDigit).isEmpty then (digitsToNat (cs.takeWhile Char.isDigit) : ℚ)
    else (digitsToNat (cs.takeWhile Char.isDigit) : ℚ) + fracVal (r2.takeWhile Char.isDigit)
  | _ => (digitsToNat (cs.takeWhile Char.isDigit) : ℚ)

/-- The label 専有面積 ("exclusive floor area"). -/
def mensekiLabel : List Char := ['専', '有', '面', '積']

/-- Source line 620: `text.match(/専有面積[^\d]*(\d+(?:\.\d+)?)/)`.
The pattern can only start at an occurrence of the literal, and `[^\d]*`
greedily skips to the first digit after it; the leftmost occurrence
matches iff any digit follows it. -/
def menAreaMatch (cs : List Char) : Option ℚ :=
  match dropAfterFirst mensekiLabel cs with
  | none => none
  | some rest =>
    match rest.dropWhile (fun c => !c.isDigit) with
    | [] => none
    | c :: r => some (captNum (c :: r))

/-- The optional `(?:,\d+)?` group (greedy): on digits `d` with remainder
`r`, absorb one comma followed by at least one digit. -/
def commaStep (commas : Bool) (d r : List Char) : List Char × List Char :=
  if commas then
    match r with
    | ',' :: rr =>
      if (rr.takeWhile Char.isDigit).isEmpty then (d, r)
      else (d ++ rr.takeWhile Char.isDigit, rr.dropWhile Char.isDigit)
    | _ => (d, r)
  else (d, r)

/-- The optional `(?:\.\d+)?` group (greedy): turn the collected digits and
an optional fraction into the captured value and the remainder. -/
def fracStep (ds r : List Char) : ℚ × List Char :=
  match r with
  | '.' :: rr =>
    if (rr.takeWhile Char.isDigit).isEmpty then ((digitsToNat ds : ℚ), '.' :: rr)
    else ((digitsToNat ds : ℚ) + fracVal (rr.takeWhile Char.isDigit), rr.dropWhile Char.isDigit)
  | _ => ((digitsToNat ds : ℚ), r)

/-- The trailing `\s*` (when `spaces`) and the required unit character. -/
def unitStep (spaces : Bool) (units : List Char) (v : ℚ) (r3 : List Char) : Option ℚ :=
  match (if spaces then r3.dropWhile jsSpace else r3) with
  | u :: _ => if units.contains u then some v else none
  | [] => none

/-- One attempt of the number-before-unit patterns at a fixed start
position (which must be a digit): `\d+`, optional `,\d+` when `commas`,
optional `\.\d+`, optional `\s*` when `spaces`, then one of `units`. -/
def tryNumUnit (spaces commas : Bool) (units : List Char) (cs : List Char) : Option ℚ :=
  if (cs.takeWhile Char.isDigit).isEmpty then none
  else
    unitStep spaces units
      (fracStep (commaStep commas (cs.takeWhile Char.isDigit) (cs.dropWhile Char.isDigit)).1
        (commaStep commas (cs.takeWhile Char.isDigit) (cs.dropWhile Char.isDigit)).2).1
      (fracStep (commaStep commas (cs.takeWhile Char.isDigit) (cs.dropWhile Char.isDigit)).1
        (commaStep commas (cs.takeWhile Char.isDigit) (cs.dropWhile Char.isDigit)).2).2

/-- Leftmost-match scan for the number-before-unit regexes. -/
def scanNumUnit (spaces commas : Bool) (units : List Char) : List Char → Option ℚ
  | [] => none
  | c :: r =>
    match (if c.isDigit then tryNumUnit spaces commas units (c :: r) else none) with
    | some v => some v
    | none => scanNumUnit spaces commas units r

/-- Source line 628: `text.match(/(\d+(?:\.\d+)?)\s*[m㎡]/)`. -/
def unitAreaMatch (cs : List Char) : Option ℚ :=
  scanNumUnit true false ['m', '㎡'] cs

/-- Source line 636: `text.match(/(\d+(?:\.\d+)?)億/)`. -/
def okuMatch (cs : List Char) : Option ℚ :=
  scanNumUnit false false ['億'] cs

/-- Source line 637: `text.match(/(\d+(?:,\d+)?(?:\.\d+)?)万/)`; the comma
group is stripped before `parseFloat` (line 648). -/
def manMatch (cs : List Char) : Option ℚ :=
  scanNumUnit false true ['万'] cs

/-- Source lines 639-649: `totalMan = oku*10000 + man`, absent tags count 0. -/
def currencyTotal (cs : List Char) : ℚ :=
  (match okuMatch cs with | some q => q * 10000 | none => 0) +
  (match manMatch cs with | some q => q | none => 0)

/-- Character class `[\d.]` of the fallback regex (source line 656). -/
def isDigitDot (c : Char) : Bool := c.isDigit || c == '.'

/-- First maximal run of characters satisfying `p` (leftmost match of
`[\d.]+`-style patterns). -/
def firstRun (p : Char → Bool) : List Char → Option (List Char)
  | [] => none
  | c :: r => if p c then some ((c :: r).takeWhile p) else firstRun p r

/-- JS `parseFloat` restricted to a nonempty string of digits and dots:
`\d+(\.\d*)?` or `\.\d+` prefix, `none` for NaN (e.g. a dots-only run). -/
def parseFloatDD (run : List Char) : Option ℚ :=
  match run with
  | [] => none
  | c :: r =>
    if c.isDigit then
      match (c :: r).dropWhile Char.isDigit with
      | '.' :: r2 =>
        some ((digitsToNat ((c :: r).takeWhile Char.isDigit) : ℚ) + fracVal (r2.takeWhile Char.isDigit))
      | _ => some ((digitsToNat ((c :: r).takeWhile Char.isDigit) : ℚ))
    else
      match r with
      | d2 :: r2 => if d2.isDigit then some (fracVal ((d2 :: r2).takeWhile Char.isDigit)) else none
      | [] => none

/-- Wrap a `parseFloat` outcome: a parse failure is the number NaN. -/
def parseResult : Option ℚ → ExtractResult
  | some q => ExtractResult.num q
  | none => ExtractResult.nan

/-- Source lines 655-657: strip commas from the whole text, take the first
`[\d.]+` run, `parseFloat` it; `null` when there is no run. -/
def fallbackRule (cs : List Char) : ExtractResult :=
  match firstRun isDigitDot (cs.filter (fun c => c ≠ ',')) with
  | none => ExtractResult.null
  | some run => parseResult (parseFloatDD run)

/-- Source lines 634-657: the two-tier currency rule followed by the
generic fallback (the tail of `extractNumber` after both area rules). -/
def currencyOrFallback (cs : List Char) : ExtractResult :=
  if 0 < currencyTotal cs then ExtractResult.num (currencyTotal cs) else fallbackRule cs

/-- Body of `extractNumber` for a non-falsy string (source lines 618-657). -/
def extractNumberCore (cs : List Char) : ExtractResult :=
  match (if containsSub mensekiLabel cs then menAreaMatch cs else none) with
  | some q => ExtractResult.num q
  | none =>
    match (if cs.contains 'm' || cs.contains '㎡' then unitAreaMatch cs else none) with
    | some q => ExtractResult.num q
    | none => currencyOrFallback cs

/-- `extractNumber` (source lines 615-658).  `none` models JS null input;
`if (!text) return null` also catches the empty string. -/
def extractNumber : Option String → ExtractResult
  | none => ExtractResult.null
  | some s => if s.data.isEmpty then ExtractResult.null else extractNumberCore s.data

/-- JS `Math.round`: round half toward +∞, i.e. floor (x + 1/2). -/
def mathRound (q : ℚ) : ℤ := Rat.floor (q + 1 / 2)

/-- The source literal 3.3058 (㎡ per 坪). -/
def tsuboFactor : ℚ := 33058 / 10000

/-- `calculateTsuboPrice` (source lines 666-669):
`Math.round(price / (area / 3.3058))`. -/
def calculateTsuboPrice (price area : ℚ) : ℤ :=
  mathRound (price / (area / tsuboFactor))

/-- `calculateHeiheiPrice` (source lines 677-679): `Math.round(price / area)`. -/
def calculateHeiheiPrice (price area : ℚ) : ℤ :=
  mathRound (price / area)

/-- Rounding as the spec words it: round-half-away-from-zero.  Agrees with
`mathRound` on non-negative arguments, differs at negative halves. -/
def specRound (q : ℚ) : ℤ :=
  if q < 0 then -(Rat.floor ((-q) + 1 / 2)) else Rat.floor (q + 1 / 2)

/-- JS truthiness of an `extractNumber` result: null, NaN and 0 are falsy. -/
def truthy : ExtractResult → Bool
  | ExtractResult.null => false
  | ExtractResult.nan => false
  | ExtractResult.num q => q ≠ 0

/-- JS `x > 0` on an `extractNumber` result (`null > 0` and `NaN > 0` are
both false). -/
def gtZero : ExtractResult → Bool
  | ExtractResult.null => false
  | ExtractResult.nan => false
  | ExtractResult.num q => 0 < q

/-- Source line 914 and line 1114: the guard
`price && area && price > 0 && area > 0` ahead of every display-path call
of the two calculators (JS truthiness followed by explicit positivity). -/
def displayGuard (price area : ExtractResult) : Bool :=
  truthy price && truthy area && gtZero price && gtZero area

/-! ### Range of the extractor: every numeric result is non-negative -/

theorem digitsToNat_cast_nonneg (ds : List Char) : (0 : ℚ) ≤ (digitsToNat ds : ℚ) :=
  Nat.cast_nonneg _

theorem fracVal_nonneg (ds : List Char) : 0 ≤ fracVal ds := by
  unfold fracVal
  positivity

theorem captNum_nonneg (cs : List Char) : 0 ≤ captNum cs := by
  unfold captNum
  split
  · split
    · exact digitsToNat_cast_nonneg _
    · exact add_nonneg (digitsToNat_cast_nonneg _) (fracVal_nonneg _)
  · exact digitsToNat_cast_nonneg _

theorem fracStep_fst_nonneg (ds r : List Char) : 0 ≤ (fracStep ds r).1 := by
  unfold fracStep
  split
  · rename_i rr
    by_cases hE : (rr.takeWhile Char.isDigit).isEmpty
    · rw [if_pos hE]
      exact digitsToNat_cast_nonneg _
    · rw [if_neg hE]
      exact add_nonneg (digitsToNat_cast_nonneg _) (fracVal_nonneg _)
  · exact digitsToNat_cast_nonneg _

theorem unitStep_some (sp : Bool) (units : List Char) (v : ℚ) (r3 : List Char) (w : ℚ)
    (h : unitStep sp units v r3 = some w) : w = v := by
  unfold unitStep at h
  split at h
  · split at h
    · exact (Option.some_inj.mp h).symm
    · exact absurd h (by simp)
  · exact absurd h (by simp)

theorem menAreaMatch_nonneg (cs : List Char) (v : ℚ) (h : menAreaMatch cs = some v) :
    0 ≤ v := by
  unfold menAreaMatch at h
  split at h
  · exact absurd h (by simp)
  · split at h
    · exact absurd h (by simp)
    · rw [Option.some_inj] at h
      exact h ▸ captNum_nonneg _

theorem tryNumUnit_nonneg (sp co : Bool) (u cs : List Char) (v : ℚ)
    (h : tryNumUnit sp co u cs = some v) : 0 ≤ v := by
  unfold tryNumUnit at h
  split at h
  · exact absurd h (by simp)
  · rw [unitStep_some _ _ _ _ _ h]
    exact fracStep_fst_nonneg _ _

theorem scanNumUnit_nonneg (sp co : Bool) (u : List Char) (cs : List Char) (v : ℚ)
    (h : scanNumUnit sp co u cs = some v) : 0 ≤ v := by
  induction cs with
  | nil => exact absurd h (by simp [scanNumUnit])
  | cons c r ih =>
    rw [scanNumUnit] at h
    split at h
    · rename_i heq
      split at heq
      · rw [Option.some_inj] at h
        exact h ▸ tryNumUnit_nonneg _ _ _ _ _ heq
      · exact absurd heq (by simp)
    · exact ih h

theorem parseFloatDD_nonneg (run : List Char) (v : ℚ) (h : parseFloatDD run = some v) :
    0 ≤ v := by
  unfold parseFloatDD at h
  split at h
  · exact absurd h (by simp)
  · split at h
    · split at h
      · rw [Option.some_inj] at h
        exact h ▸ add_nonneg (digitsToNat_cast_nonneg _) (fracVal_nonneg _)
      · rw [Option.some_inj] at h
        exact h ▸ digitsToNat_cast_nonneg _
    · split at h
      · split at h
        · rw [Option.some_inj] at h
          exact h ▸ fracVal_nonneg _
        · exact absurd h (by simp)
      · exact absurd h (by simp)

theorem parseResult_ne_null (o : Option ℚ) : parseResult o ≠ ExtractResult.null := by
  cases o <;> simp [parseResult]

theorem parseResult_num (o : Option ℚ) (v : ℚ) (h : parseResult o = ExtractResult.num v) :
    o = some v := by
  cases o with
  | none => exact absurd h (by simp [parseResult])
  | some q =>
    simp only [parseResult] at h
    cases h
    rfl

theorem fallbackRule_num_nonneg (cs : List Char) (v : ℚ)
    (h : fallbackRule cs = ExtractResult.num v) : 0 ≤ v := by
  unfold fallbackRule at h
  split at h
  · exact absurd h (by simp)
  · exact parseFloatDD_nonneg _ _ (parseResult_num _ _ h)

theorem currencyOrFallback_num_nonneg (cs : List Char) (v : ℚ)
    (h : currencyOrFallback cs = ExtractResult.num v) : 0 ≤ v := by
  unfold currencyOrFallback at h
  split at h
  · rename_i hpos
    cases h
    exact le_of_lt hpos
  · exact fallbackRule_num_nonneg _ _ h

/-- Range of `extractNumber`: a numeric result is never negative — the
regexes only capture unsigned digit strings (a leading minus sign is never
part of a match). -/
theorem extractNumber_nonneg (t : Option String) (v : ℚ)
    (h : extractNumber t = ExtractResult.num v) : 0 ≤ v := by
  match t with
  | none => exact absurd h (by simp [extractNumber])
  | some s =>
    rw [extractNumber] at h
    split at h
    · exact absurd h (by simp)
    · rw [extractNumberCore] at h
      split at h
      · rename_i q heq
        split at heq
        · cases h
          exact menAreaMatch_nonneg s.data _ heq
        · exact absurd heq (by simp)
      · split at h
        · rename_i q heq
          split at heq
          · cases h
            exact scanNumUnit_nonneg _ _ _ _ _ heq
          · exact absurd heq (by simp)
        · exact currencyOrFallback_num_nonneg _ _ h

/-! ### Helper lemmas on the fallback rule and rounding -/

theorem specRound_eq_mathRound (q : ℚ) (h : 0 ≤ q) : specRound q = mathRound q := by
  unfold specRound mathRound
  rw [if_neg (not_lt.mpr h)]

theorem firstRun_eq_none_iff (p : Char → Bool) (l : List Char) :
    firstRun p l = none ↔ ∀ c ∈ l, p c = false := by
  induction l with
  | nil => simp [firstRun]
  | cons c r ih =>
    rw [firstRun]
    by_cases h : p c
    · rw [if_pos h]
      constructor
      · intro hc
        exact absurd hc (by simp)
      · intro hall
        exact absurd (hall c (List.mem_cons_self c r)) (by simp [h])
    · rw [if_neg h, ih]
      constructor
      · intro hall d hd
        rcases List.mem_cons.mp hd with hd | hd
        · subst hd
          exact Bool.eq_false_iff.mpr h
        · exact hall d hd
      · intro hall d hd
        exact hall d (List.mem_cons_of_mem c hd)

theorem firstRun_some_exists (p : Char → Bool) (l : List Char) (run : List Char)
    (h : firstRun p l = some run) : ∃ c ∈ l, p c = true := by
  induction l with
  | nil => exact absurd h (by simp [firstRun])
  | cons c r ih =>
    rw [firstRun] at h
    split at h
    · exact ⟨c, List.mem_cons_self c r, by assumption⟩
    · obtain ⟨d, hd, hp⟩ := ih h
      exact ⟨d, List.mem_cons_of_mem c hd, hp⟩

/-- The fallback is `null` exactly when the text has no digit and no dot:
the comma-stripping cannot create or destroy `[\d.]` characters. -/
theorem fallbackRule_null_iff (cs : List Char) :
    fallbackRule cs = ExtractResult.null ↔ ∀ c ∈ cs, isDigitDot c = false := by
  unfold fallbackRule
  split
  · rename_i hr
    constructor
    · intro _ c hc
      by_cases hcomma : c = ','
      · subst hcomma
        rfl
      · exact (firstRun_eq_none_iff _ _).mp hr c (List.mem_filter.mpr ⟨hc, by simp [hcomma]⟩)
    · intro _
      rfl
  · rename_i run hr
    constructor
    · intro h
      exact absurd h (parseResult_ne_null _)
    · intro hall
      exfalso
      obtain ⟨c, hc, hp⟩ := firstRun_some_exists _ _ _ hr
      have hcs : c ∈ cs := (List.mem_filter.mp hc).1
      rw [hall c hcs] at hp
      exact absurd hp (by simp)

/-! ### Claim C1: the calculators against the spec formulas -/

/-- C1, counterexample: the spec's reference value for the per-tsubo metric
is wrong.  For amount 25990 and area 70 the code returns
round(25990 / (70 / 3.3058)) = round(1227.396...) = 1227, not 1228. -/
theorem calculator_reference_counterexample :
    calculateTsuboPrice 25990 70 = 1227 ∧ (1227 : ℤ) ≠ 1228 :=
  ⟨by with_unfolding_all rfl, by decide⟩

/-- C1 (amended): for every positive amount and area,
`perAreaUnit = round(amount / area)` and
`perTraditionalUnit = round(amount / (area / 3.3058))` with standard
(round-half-away-from-zero) rounding; for amount 25990 and area 70 the
results are perAreaUnit = 371 and perTraditionalUnit = 1227 (not 1228). -/
theorem calculator_matches_spec_formula :
    (∀ price area : ℚ, 0 < price → 0 < area →
      calculateHeiheiPrice price area = specRound (price / area) ∧
      calculateTsuboPrice price area = specRound (price / (area / tsuboFactor))) ∧
    calculateHeiheiPrice 25990 70 = 371 ∧
    calculateTsuboPrice 25990 70 = 1227 := by
  refine ⟨fun price area hp ha => ⟨?_, ?_⟩, ?_, ?_⟩
  · rw [specRound_eq_mathRound _ (div_nonneg hp.le ha.le)]
    rfl
  · have hf : (0 : ℚ) < tsuboFactor := by norm_num [tsuboFactor]
    rw [specRound_eq_mathRound _ (div_nonneg hp.le (div_nonneg ha.le hf.le))]
    rfl
  · with_unfolding_all rfl
  · with_unfolding_all rfl

/-- Witness for `calculator_matches_spec_formula` at amount 25990, area 70. -/
theorem calculator_matches_spec_formula_witness :
    calculateHeiheiPrice 25990 70 = specRound ((25990 : ℚ) / 70) ∧
    calculateTsuboPrice 25990 70 = specRound ((25990 : ℚ) / (70 / tsuboFactor)) :=
  (calculator_matches_spec_formula.1 25990 70 (by norm_num) (by norm_num))

/-! ### Claim C2: reference values of the extractor -/

/-- C2: the extractor returns exactly the spec's reference values:
"2億5990万円" ↦ 25990 (2 × 10000 + 5990), "12,900万円" ↦ 12900 (thousands
separator stripped), "専有面積107.19m2" ↦ 107.19, "135.24㎡" ↦ 135.24. -/
theorem extractor_reference_values :
    extractNumber (some "2億5990万円") = ExtractResult.num 25990 ∧
    extractNumber (some "12,900万円") = ExtractResult.num 12900 ∧
    extractNumber (some "専有面積107.19m2") = ExtractResult.num (10719 / 100) ∧
    extractNumber (some "135.24㎡") = ExtractResult.num (13524 / 100) :=
  ⟨by with_unfolding_all rfl, by with_unfolding_all rfl,
   by with_unfolding_all rfl, by with_unfolding_all rfl⟩

/-! ### Claim C3: totality and the fallback contract -/

/-- C3, counterexample: on the text "." the fallback matches the run "."
(`[\d.]+` accepts dots alone) and `parseFloat(".")` is NaN, a number — not
the `null` the claim requires for a text with no decimal-number substring. -/
theorem extractor_fallback_counterexample :
    extractNumber (some ".") = ExtractResult.nan ∧
    ExtractResult.nan ≠ ExtractResult.null :=
  ⟨by with_unfolding_all rfl, by decide⟩

/-- C3 (amended): `extractNumber` is total (never throws; every result is
JS null or a JS number, NaN included).  When the area rules and the
currency rule decline, it returns the first contiguous `[\d.]+` run of the
comma-stripped text parsed by `parseFloat` — which is the number NaN, not
null, when that run has no leading parseable number (dots only) — and it
returns `null` exactly when the text contains no digit and no dot. -/
theorem extractor_fallback_contract :
    (∀ s : String,
      (containsSub mensekiLabel s.data = true → menAreaMatch s.data = none) →
      ((s.data.contains 'm' || s.data.contains '㎡') = true → unitAreaMatch s.data = none) →
      currencyTotal s.data = 0 →
      extractNumber (some s) = fallbackRule s.data) ∧
    (∀ cs : List Char, fallbackRule cs = ExtractResult.null ↔ ∀ c ∈ cs, isDigitDot c = false) := by
  constructor
  · intro s h1 h2 h3
    rw [extractNumber]
    by_cases he : s.data.isEmpty
    · rw [if_pos he]
      rw [List.isEmpty_iff.mp he]
      rfl
    · rw [if_neg he]
      rw [extractNumberCore]
      have e1 : (if containsSub mensekiLabel s.data then menAreaMatch s.data else none) = none := by
        split
        · exact h1 (by assumption)
        · rfl
      have e2 : (if s.data.contains 'm' || s.data.contains '㎡' then unitAreaMatch s.data else none)
          = none := by
        split
        · exact h2 (by assumption)
        · rfl
      rw [e1, e2]
      rw [currencyOrFallback, h3]
      norm_num
  · exact fallbackRule_null_iff

/-- Witness for `extractor_fallback_contract` on the text "abc" (no rule
applies, no digit or dot: the result is null). -/
theorem extractor_fallback_contract_witness :
    extractNumber (some "abc") = fallbackRule "abc".data :=
  extractor_fallback_contract.1 "abc" (by decide) (by decide) (by with_unfolding_all rfl)

/-! ### Claim C10: a failed area marker falls through, it does not nullify -/

/-- C10: a text that carries an area-marker token (the 専有面積 label or an
m/㎡ unit character) whose area patterns nevertheless fail to match is not
rejected: `extractNumber` proceeds to the two-tier currency rule and then
to the generic fallback. -/
theorem area_marker_fallthrough (s : String)
    (hm : containsSub mensekiLabel s.data = true ∨
          s.data.contains 'm' = true ∨ s.data.contains '㎡' = true)
    (h1 : menAreaMatch s.data = none)
    (h2 : unitAreaMatch s.data = none) :
    extractNumber (some s) = currencyOrFallback s.data := by
  have hd : s.data ≠ [] := by
    intro h0
    rw [h0] at hm
    rcases hm with h | h | h <;> exact absurd h (by decide)
  have hne : ¬s.data.isEmpty = true := by
    rw [List.isEmpty_iff]
    exact hd
  rw [extractNumber, if_neg hne]
  rw [extractNumberCore]
  have e1 : (if containsSub mensekiLabel s.data then menAreaMatch s.data else none) = none := by
    split
    · exact h1
    · rfl
  have e2 : (if s.data.contains 'm' || s.data.contains '㎡' then unitAreaMatch s.data else none)
      = none := by
    split
    · exact h2
    · rfl
  rw [e1, e2]

/-- Witness for `area_marker_fallthrough`: "㎡単価 3000万円" carries the ㎡
marker, no number precedes a unit character, and the currency rule still
produces 3000. -/
theorem area_marker_fallthrough_witness :
    extractNumber (some "㎡単価 3000万円") = currencyOrFallback "㎡単価 3000万円".data ∧
    currencyOrFallback "㎡単価 3000万円".data = ExtractResult.num 3000 :=
  ⟨area_marker_fallthrough "㎡単価 3000万円" (Or.inr (Or.inr (by decide)))
      (by decide) (by with_unfolding_all rfl),
   by with_unfolding_all rfl⟩

/-! ### Claim C7: no division by zero at any calculator call site -/

/-- C7: every call site establishes strictly positive amount and area
before invoking the calculators, so the divisors `area` and
`area / 3.3058` are never zero.  The display paths (listing, source line
914, and detail, line 1114) test `price && area && price > 0 && area > 0`;
the export path (line 1664) tests only truthiness, which suffices because
a numeric `extractNumber` result is never negative. -/
theorem division_by_zero_impossible :
    (∀ pr ar : ExtractResult, displayGuard pr ar = true →
      ∃ p a : ℚ, pr = ExtractResult.num p ∧ ar = ExtractResult.num a ∧
        0 < p ∧ 0 < a ∧ a ≠ 0 ∧ a / tsuboFactor ≠ 0) ∧
    (∀ s t : Option String,
      truthy (extractNumber s) = true → truthy (extractNumber t) = true →
      ∃ p a : ℚ, extractNumber s = ExtractResult.num p ∧ extractNumber t = ExtractResult.num a ∧
        0 < p ∧ 0 < a ∧ a ≠ 0 ∧ a / tsuboFactor ≠ 0) := by
  have hfac : (0 : ℚ) < tsuboFactor := by norm_num [tsuboFactor]
  constructor
  · intro pr ar h
    cases pr with
    | null => exact absurd h (by simp [displayGuard, truthy])
    | nan => exact absurd h (by simp [displayGuard, truthy])
    | num p =>
      cases ar with
      | null => exact absurd h (by simp [displayGuard, truthy])
      | nan => exact absurd h (by simp [displayGuard, truthy])
      | num a =>
        simp only [displayGuard, truthy, gtZero, Bool.and_eq_true, decide_eq_true_eq] at h
        refine ⟨p, a, rfl, rfl, h.1.2, h.2, ne_of_gt h.2, ne_of_gt (div_pos h.2 hfac)⟩
  · intro s t hs ht
    rcases hsv : extractNumber s with _ | _ | p
    · rw [hsv] at hs
      exact absurd hs (by simp [truthy])
    · rw [hsv] at hs
      exact absurd hs (by simp [truthy])
    · rcases htv : extractNumber t with _ | _ | a
      · rw [htv] at ht
        exact absurd ht (by simp [truthy])
      · rw [htv] at ht
        exact absurd ht (by simp [truthy])
      · rw [hsv] at hs
        rw [htv] at ht
        simp only [truthy, decide_eq_true_eq] at hs ht
        have hp : 0 < p := lt_of_le_of_ne (extractNumber_nonneg s p hsv) (Ne.symm hs)
        have ha : 0 < a := lt_of_le_of_ne (extractNumber_nonneg t a htv) (Ne.symm ht)
        exact ⟨p, a, rfl, rfl, hp, ha, ne_of_gt ha, ne_of_gt (div_pos ha hfac)⟩

/-- Witness for `division_by_zero_impossible`: the display guard on the
numbers 25990 and 70, and the export guard on the texts "5000万円" and
"70㎡". -/
theorem division_by_zero_impossible_witness :
    (∃ p a : ℚ, ExtractResult.num (25990 : ℚ) = ExtractResult.num p ∧
      ExtractResult.num (70 : ℚ) = ExtractResult.num a ∧
      0 < p ∧ 0 < a ∧ a ≠ 0 ∧ a / tsuboFactor ≠ 0) ∧
    (∃ p a : ℚ, extractNumber (some "5000万円") = ExtractResult.num p ∧
      extractNumber (some "70㎡") = ExtractResult.num a ∧
      0 < p ∧ 0 < a ∧ a ≠ 0 ∧ a / tsuboFactor ≠ 0) :=
  ⟨division_by_zero_impossible.1 (ExtractResult.num 25990) (ExtractResult.num 70)
      (by with_unfolding_all decide),
   division_by_zero_impossible.2 (some "5000万円") (some "70㎡")
      (by with_unfolding_all decide) (by with_unfolding_all decide)⟩

/-! ### The display pipeline: `processProperty` (source lines 685-982)

The DOM around one located price element is modelled at the granularity
the function manipulates it: the price element's own unit-price-block
descendants, and its parent's child list split into the siblings before
and after the price element.  `querySelector('.suumo-unit-price')` on the
parent is the first block in document order (before-siblings, then the
price element's descendants, then after-siblings); on the price element it
is the first of its own descendants.  The price/area locator cascades
(lines 693-892) are represented by their outcome: the located price
element context and the located area element's text content, `none` when
no locator matched. -/

/-- Content of an inserted unit-price block: the two computed metrics, or
the 計算不可 ("not computable") placeholder (source lines 932-948). -/
inductive AnnContent where
  | values : ℤ → ℤ → AnnContent
  | notComputable : AnnContent
deriving DecidableEq, Repr

/-- An inserted `<div class="suumo-unit-price">` block; `compact` is the
`--compact` styling variant used inside tables (source lines 907-912). -/
structure AnnBlock where
  compact : Bool
  content : AnnContent
deriving DecidableEq, Repr

/-- A sibling of the price element inside its parent: a previously
inserted unit-price block, or any other node (by identity). -/
inductive SiblingNode where
  | ann : AnnBlock → SiblingNode
  | other : ℕ → SiblingNode
deriving DecidableEq, Repr

/-- The parent of the located price element: its other children, in
document order, split at the price element. -/
structure ParentCtx where
  before : List SiblingNode
  after : List SiblingNode
deriving DecidableEq, Repr

/-- The located price element: its text content, whether
`closest('table')` finds a table, its unit-price-block descendants, and
its parent (`none` models `parentElement === null`). -/
structure PriceElemCtx where
  text : String
  inTable : Bool
  innerAnns : List AnnBlock
  parent : Option ParentCtx
deriving DecidableEq, Repr

/-- One listing card as `processProperty` sees it: element identity, the
outcome of the price locator cascade (source lines 693-760) and the text
content of the located area element (lines 762-892). -/
structure PropertyCard where
  elemId : ℕ
  priceLoc : Option PriceElemCtx
  areaText : Option String
deriving DecidableEq, Repr

/-- Page-global mutable state: `processedElements` (source line 596), the
`calculationCache` (line 598), and a counter of fresh rounding
computations (the observable "counting stub" of spec §8). -/
structure ProcState where
  processed : List ℕ
  cache : List ((ℚ × ℚ) × (ℤ × ℤ))
  computeCount : ℕ
deriving DecidableEq, Repr

/-- `calculationCache.get`: the cache is keyed by the template string
`price + "_" + area` (source line 916); number-to-string conversion is
injective on the positive numbers reaching it, so the model keys by the
exact pair. -/
def cacheLookup (c : List ((ℚ × ℚ) × (ℤ × ℤ))) (k : ℚ × ℚ) : Option (ℤ × ℤ) :=
  (c.find? (fun e => decide (e.1 = k))).map (fun e => e.2)

/-- Source lines 918-930 (and identically 1117-1128): take the pair from
the cache if present, else compute both metrics, store them under the
`(price, area)` key and count one fresh computation. -/
def cachedCalc (st : ProcState) (price area : ℚ) : (ℤ × ℤ) × ProcState :=
  match cacheLookup st.cache (price, area) with
  | some pr => (pr, st)
  | none =>
    ((calculateTsuboPrice price area, calculateHeiheiPrice price area),
     { st with
        cache := ((price, area),
          (calculateTsuboPrice price area, calculateHeiheiPrice price area)) :: st.cache,
        computeCount := st.computeCount + 1 })

/-- Source lines 914-948: the block content is the two metrics when
`price && area && price > 0 && area > 0` (fetched through the cache), else
the placeholder. -/
def annContentOf (st : ProcState) (price area : ExtractResult) : AnnContent × ProcState :=
  if displayGuard price area then
    match price, area with
    | ExtractResult.num p, ExtractResult.num a =>
      (AnnContent.values (cachedCalc st p a).1.1 (cachedCalc st p a).1.2, (cachedCalc st p a).2)
    | _, _ => (AnnContent.notComputable, st)
  else (AnnContent.notComputable, st)

/-- Remove the first unit-price block of a sibling list; `none` when the
list has no block. -/
def removeFirstAnnSib : List SiblingNode → Option (List SiblingNode)
  | [] => none
  | SiblingNode.ann _ :: r => some r
  | SiblingNode.other i :: r =>
    match removeFirstAnnSib r with
    | some r2 => some (SiblingNode.other i :: r2)
    | none => none

/-- Source lines 951-954: `priceElement.parentElement?.querySelector`
finds (and the code removes) the first unit-price block in the parent's
subtree, in document order; a missing parent skips this step. -/
def removalParent (pe : PriceElemCtx) : PriceElemCtx :=
  match pe.parent with
  | none => pe
  | some par =>
    match removeFirstAnnSib par.before with
    | some b2 => { pe with parent := some { par with before := b2 } }
    | none =>
      match pe.innerAnns with
      | _ :: t => { pe with innerAnns := t }
      | [] =>
        match removeFirstAnnSib par.after with
        | some a2 => { pe with parent := some { par with after := a2 } }
        | none => pe

/-- Source lines 955-958: `priceElement.querySelector` then removes the
first unit-price block still inside the price element. -/
def removalInner (pe : PriceElemCtx) : PriceElemCtx :=
  match pe.innerAnns with
  | _ :: t => { pe with innerAnns := t }
  | [] => pe

/-- The whole pre-insertion removal (source lines 950-958). -/
def removalStep (pe : PriceElemCtx) : PriceElemCtx :=
  removalInner (removalParent pe)

/-- `processedElements.add` (a Set: adding a member again is a no-op). -/
def addProcessed (l : List ℕ) (n : ℕ) : List ℕ :=
  if n ∈ l then l else l ++ [n]

/-- Source line 962: `priceElement.appendChild(unitPriceDiv)` (table case). -/
def appendInner (pe : PriceElemCtx) (b : AnnBlock) : PriceElemCtx :=
  { pe with innerAnns := pe.innerAnns ++ [b] }

/-- Source lines 968-972: insert as the immediate next sibling of the
price element (or append when it is the last child). -/
def consAfter (pe : PriceElemCtx) (par : ParentCtx) (b : AnnBlock) : PriceElemCtx :=
  { pe with parent := some { par with after := SiblingNode.ann b :: par.after } }

/-- Source lines 960-981: insert the block and mark the element processed;
when the price element is outside a table and has no parent, abort without
marking (line 976) — the removals (lines 950-958) have already happened. -/
def insertAndMark (st1 : ProcState) (card : PropertyCard) (pe : PriceElemCtx)
    (content : AnnContent) : ProcState × PropertyCard :=
  if pe.inTable then
    ({ st1 with processed := addProcessed st1.processed card.elemId },
     { card with priceLoc := some (appendInner (removalStep pe) (AnnBlock.mk pe.inTable content)) })
  else
    match (removalStep pe).parent with
    | some par =>
      ({ st1 with processed := addProcessed st1.processed card.elemId },
       { card with priceLoc := some (consAfter (removalStep pe) par (AnnBlock.mk pe.inTable content)) })
    | none => (st1, { card with priceLoc := some (removalStep pe) })

/-- Steps 2-8 of `processProperty` once a price element is located. -/
def processWithPrice (st : ProcState) (card : PropertyCard) (pe : PriceElemCtx) :
    ProcState × PropertyCard :=
  insertAndMark
    (annContentOf st (extractNumber (some pe.text)) (extractNumber card.areaText)).2
    card pe
    (annContentOf st (extractNumber (some pe.text)) (extractNumber card.areaText)).1

/-- `processProperty` (source lines 685-982) as a state transformer: skip
an already processed element (line 687); abort untouched when no price
element was located (line 757); otherwise extract, build, remove, insert
and mark. -/
def processProperty (st : ProcState) (card : PropertyCard) : ProcState × PropertyCard :=
  if card.elemId ∈ st.processed then (st, card)
  else
    match card.priceLoc with
    | none => (st, card)
    | some pe => processWithPrice st card pe

/-- The unit-price blocks of a sibling list. -/
def sibAnns (l : List SiblingNode) : List AnnBlock :=
  l.filterMap (fun n => match n with | SiblingNode.ann b => some b | SiblingNode.other _ => none)

/-- All unit-price blocks attached to the price anchor, in document order. -/
def allAnns (pe : PriceElemCtx) : List AnnBlock :=
  match pe.parent with
  | none => pe.innerAnns
  | some par => sibAnns par.before ++ pe.innerAnns ++ sibAnns par.after

/-- The unit-price blocks attached to a card's price anchor. -/
def cardAnns (card : PropertyCard) : List AnnBlock :=
  match card.priceLoc with
  | none => []
  | some pe => allAnns pe

/-! ### Support lemmas for the display-path claims -/

theorem processProperty_skip (st : ProcState) (card : PropertyCard)
    (h : card.elemId ∈ st.processed) : processProperty st card = (st, card) := by
  rw [processProperty, if_pos h]

theorem processProperty_no_price (st : ProcState) (card : PropertyCard)
    (h : card.priceLoc = none) : processProperty st card = (st, card) := by
  rw [processProperty, h]
  split <;> rfl

theorem processProperty_run (st : ProcState) (card : PropertyCard) (pe : PriceElemCtx)
    (h1 : card.elemId ∉ st.processed) (h2 : card.priceLoc = some pe) :
    processProperty st card = processWithPrice st card pe := by
  rw [processProperty, if_neg h1, h2]

theorem cachedCalc_processed (st : ProcState) (p a : ℚ) :
    ((cachedCalc st p a).2).processed = st.processed := by
  unfold cachedCalc
  split <;> rfl

theorem annContentOf_processed (st : ProcState) (pr ar : ExtractResult) :
    ((annContentOf st pr ar).2).processed = st.processed := by
  unfold annContentOf
  split
  · split
    · exact cachedCalc_processed _ _ _
    · rfl
  · rfl

/-- A missing area text forces the placeholder: `extractNumber none` is
null, which fails the guard, and no state is touched. -/
theorem annContentOf_area_null (st : ProcState) (pr : ExtractResult) :
    annContentOf st pr ExtractResult.null = (AnnContent.notComputable, st) := by
  cases pr <;> simp [annContentOf, displayGuard, truthy]

theorem mem_addProcessed_self (l : List ℕ) (n : ℕ) : n ∈ addProcessed l n := by
  unfold addProcessed
  split
  · assumption
  · exact List.mem_append_right _ (List.mem_singleton.mpr rfl)

theorem count_addProcessed_of_not_mem (l : List ℕ) (n : ℕ) (h : n ∉ l) :
    (addProcessed l n).count n = 1 := by
  unfold addProcessed
  rw [if_neg h, List.count_append, List.count_eq_zero.mpr h]
  simp

theorem sibAnns_nil : sibAnns [] = [] := rfl

theorem sibAnns_cons_ann (b : AnnBlock) (r : List SiblingNode) :
    sibAnns (SiblingNode.ann b :: r) = b :: sibAnns r := rfl

theorem sibAnns_cons_other (i : ℕ) (r : List SiblingNode) :
    sibAnns (SiblingNode.other i :: r) = sibAnns r := rfl

theorem removeFirstAnnSib_none_sibAnns (l : List SiblingNode)
    (h : removeFirstAnnSib l = none) : sibAnns l = [] := by
  induction l with
  | nil => rfl
  | cons x r ih =>
    cases x with
    | ann b => exact absurd h (by simp [removeFirstAnnSib])
    | other i =>
      rw [removeFirstAnnSib] at h
      rw [sibAnns_cons_other]
      split at h
      · exact absurd h (by simp)
      · exact ih (by assumption)

theorem removeFirstAnnSib_some_sibAnns (l l2 : List SiblingNode)
    (h : removeFirstAnnSib l = some l2) : ∃ b, sibAnns l = b :: sibAnns l2 := by
  induction l generalizing l2 with
  | nil => exact absurd h (by simp [removeFirstAnnSib])
  | cons x r ih =>
    cases x with
    | ann b =>
      rw [removeFirstAnnSib, Option.some_inj] at h
      exact ⟨b, by rw [sibAnns_cons_ann, h]⟩
    | other i =>
      rw [removeFirstAnnSib] at h
      split at h
      · rename_i r2 hr2
        rw [Option.some_inj] at h
        obtain ⟨b, hb⟩ := ih r2 hr2
        subst h
        exact ⟨b, by rw [sibAnns_cons_other, sibAnns_cons_other, hb]⟩
      · exact absurd h (by simp)

theorem allAnns_parent_none (pe : PriceElemCtx) (h : pe.parent = none) :
    allAnns pe = pe.innerAnns := by
  rw [allAnns, h]

theorem allAnns_parent_some (pe : PriceElemCtx) (par : ParentCtx) (h : pe.parent = some par) :
    allAnns pe = sibAnns par.before ++ pe.innerAnns ++ sibAnns par.after := by
  rw [allAnns, h]

theorem removalStep_fields (pe : PriceElemCtx) :
    (removalStep pe).inTable = pe.inTable ∧ (removalStep pe).text = pe.text ∧
    (removalStep pe).parent.isSome = pe.parent.isSome := by
  rcases pe with ⟨tx, tb, inner, par⟩
  rcases par with _ | ⟨bef, aft⟩
  · rcases inner with _ | ⟨b, t⟩ <;> simp [removalStep, removalParent, removalInner]
  · rcases hrb : removeFirstAnnSib bef with _ | b2
    · rcases inner with _ | ⟨b, t⟩
      · rcases hra : removeFirstAnnSib aft with _ | a2 <;>
          simp [removalStep, removalParent, removalInner, hrb, hra]
      · cases t <;> simp [removalStep, removalParent, removalInner, hrb]
    · rcases inner with _ | ⟨b, t⟩ <;>
        simp [removalStep, removalParent, removalInner, hrb]

/-- When at most one unit-price block is attached, the removal step
(source lines 950-958) leaves the anchor with no block at all. -/
theorem removalStep_clears (pe : PriceElemCtx) (h : (allAnns pe).length ≤ 1) :
    allAnns (removalStep pe) = [] := by
  rcases pe with ⟨tx, tb, inner, par⟩
  rcases par with _ | ⟨bef, aft⟩
  · rcases inner with _ | ⟨b, t⟩
    · simp [removalStep, removalParent, removalInner, allAnns]
    · simp only [allAnns, List.length_cons] at h
      have ht : t = [] := by
        cases t
        · rfl
        · simp at h
      subst ht
      simp [removalStep, removalParent, removalInner, allAnns]
  · rcases hrb : removeFirstAnnSib bef with _ | b2
    · have hb : sibAnns bef = [] := removeFirstAnnSib_none_sibAnns _ hrb
      rcases inner with _ | ⟨c, t⟩
      · rcases hra : removeFirstAnnSib aft with _ | a2
        · have ha : sibAnns aft = [] := removeFirstAnnSib_none_sibAnns _ hra
          simp [removalStep, removalParent, removalInner, allAnns, hrb, hra, hb, ha]
        · obtain ⟨d, hd⟩ := removeFirstAnnSib_some_sibAnns _ _ hra
          simp only [allAnns, hb, hd, List.nil_append, List.append_nil,
            List.length_cons, List.length_nil] at h
          have ha2 : sibAnns a2 = [] := by
            have : (sibAnns a2).length = 0 := by omega
            exact List.length_eq_zero.mp this
          simp [removalStep, removalParent, removalInner, allAnns, hrb, hra, hb, ha2]
      · simp only [allAnns, hb, List.nil_append, List.length_append, List.length_cons] at h
        have ht : t = [] := by
          have : t.length = 0 := by omega
          exact List.length_eq_zero.mp this
        have ha : sibAnns aft = [] := by
          have : (sibAnns aft).length = 0 := by omega
          exact List.length_eq_zero.mp this
        subst ht
        simp [removalStep, removalParent, removalInner, allAnns, hrb, hb, ha]
    · obtain ⟨d, hd⟩ := removeFirstAnnSib_some_sibAnns _ _ hrb
      simp only [allAnns, hd, List.length_append, List.length_cons] at h
      have hb2 : sibAnns b2 = [] := by
        have : (sibAnns b2).length = 0 := by omega
        exact List.length_eq_zero.mp this
      have hin : inner = [] := by
        have : inner.length = 0 := by omega
        exact List.length_eq_zero.mp this
      have ha : sibAnns aft = [] := by
        have : (sibAnns aft).length = 0 := by omega
        exact List.length_eq_zero.mp this
      subst hin
      simp [removalStep, removalParent, removalInner, allAnns, hrb, hb2, ha]

theorem allAnns_appendInner_of_nil (pe : PriceElemCtx) (b : AnnBlock)
    (h : allAnns pe = []) : allAnns (appendInner pe b) = [b] := by
  rcases pe with ⟨tx, tb, inner, par⟩
  rcases par with _ | ⟨bef, aft⟩
  · simp only [allAnns, appendInner] at h ⊢
    simp [h]
  · simp only [allAnns, appendInner, List.append_eq_nil] at h ⊢
    obtain ⟨⟨h1, h2⟩, h3⟩ := h
    simp [h1, h2, h3]

theorem allAnns_consAfter_of_nil (pe : PriceElemCtx) (par : ParentCtx) (b : AnnBlock)
    (hp : pe.parent = some par) (h : allAnns pe = []) :
    allAnns (consAfter pe par b) = [b] := by
  rcases pe with ⟨tx, tb, inner, par0⟩
  simp only [] at hp
  subst hp
  simp only [allAnns, List.append_eq_nil] at h
  obtain ⟨⟨h1, h2⟩, h3⟩ := h
  simp [allAnns, consAfter, sibAnns_cons_ann, h1, h2, h3]

theorem mem_allAnns_appendInner (pe : PriceElemCtx) (b : AnnBlock) :
    b ∈ allAnns (appendInner pe b) := by
  rcases pe with ⟨tx, tb, inner, par⟩
  rcases par with _ | ⟨bef, aft⟩ <;> simp [allAnns, appendInner]

theorem mem_allAnns_consAfter (pe : PriceElemCtx) (par : ParentCtx) (b : AnnBlock) :
    b ∈ allAnns (consAfter pe par b) := by
  rcases pe with ⟨tx, tb, inner, par0⟩
  simp [allAnns, consAfter, sibAnns_cons_ann]

theorem insertAndMark_inTable (st1 : ProcState) (card : PropertyCard) (pe : PriceElemCtx)
    (content : AnnContent) (ht : pe.inTable = true) :
    insertAndMark st1 card pe content =
      ({ st1 with processed := addProcessed st1.processed card.elemId },
       { card with priceLoc := some (appendInner (removalStep pe) (AnnBlock.mk pe.inTable content)) }) := by
  rw [insertAndMark, if_pos ht]

theorem insertAndMark_parent (st1 : ProcState) (card : PropertyCard) (pe : PriceElemCtx)
    (content : AnnContent) (par1 : ParentCtx)
    (ht : pe.inTable = false) (hp : (removalStep pe).parent = some par1) :
    insertAndMark st1 card pe content =
      ({ st1 with processed := addProcessed st1.processed card.elemId },
       { card with priceLoc := some (consAfter (removalStep pe) par1 (AnnBlock.mk pe.inTable content)) }) := by
  rw [insertAndMark, if_neg (by simp [ht]), hp]

theorem cardAnns_update (card : PropertyCard) (x : PriceElemCtx) :
    cardAnns { card with priceLoc := some x } = allAnns x := rfl

/-! ### Claim C4: price absence aborts, area absence renders a placeholder -/

/-- C4: in `processProperty`, failing to locate a price element aborts
with no annotation inserted and the element not marked processed
(source line 757-760), while failing to locate an area element still
inserts an annotation — the 計算不可 placeholder — and marks the element
processed (a null area fails the guard of line 914 but the insertion of
lines 960-981 still runs). -/
theorem price_abort_area_placeholder (st : ProcState) (card : PropertyCard) (pe : PriceElemCtx) :
    (card.priceLoc = none → processProperty st card = (st, card)) ∧
    (card.elemId ∉ st.processed → card.priceLoc = some pe → card.areaText = none →
      (pe.inTable = true ∨ pe.parent.isSome = true) →
      card.elemId ∈ (processProperty st card).1.processed ∧
      AnnBlock.mk pe.inTable AnnContent.notComputable ∈ cardAnns (processProperty st card).2) := by
  constructor
  · exact processProperty_no_price st card
  · intro h1 h2 h3 h4
    rw [processProperty_run st card pe h1 h2, processWithPrice, h3]
    have hnull : extractNumber none = ExtractResult.null := rfl
    rw [hnull, annContentOf_area_null]
    rcases htb : pe.inTable with _ | _
    · have hps : (removalStep pe).parent.isSome = true := by
        rw [(removalStep_fields pe).2.2]
        rcases h4 with h4 | h4
        · rw [htb] at h4
          exact absurd h4 (by decide)
        · exact h4
      obtain ⟨par1, hpar1⟩ := Option.isSome_iff_exists.mp hps
      rw [insertAndMark_parent _ card pe _ par1 htb hpar1]
      refine ⟨mem_addProcessed_self _ _, ?_⟩
      rw [cardAnns_update, htb]
      exact mem_allAnns_consAfter _ _ _
    · rw [insertAndMark_inTable _ card pe _ htb]
      refine ⟨mem_addProcessed_self _ _, ?_⟩
      rw [cardAnns_update, htb]
      exact mem_allAnns_appendInner _ _

/-- Witness for `price_abort_area_placeholder`: a card with a located
price element ("5000万円", not in a table, parent present) and no located
area element. -/
theorem price_abort_area_placeholder_witness :
    (0 : ℕ) ∈ (processProperty ⟨[], [], 0⟩
        ⟨0, some ⟨"5000万円", false, [], some ⟨[], []⟩⟩, none⟩).1.processed ∧
    AnnBlock.mk false AnnContent.notComputable ∈ cardAnns (processProperty ⟨[], [], 0⟩
        ⟨0, some ⟨"5000万円", false, [], some ⟨[], []⟩⟩, none⟩).2 :=
  (price_abort_area_placeholder ⟨[], [], 0⟩
      ⟨0, some ⟨"5000万円", false, [], some ⟨[], []⟩⟩, none⟩
      ⟨"5000万円", false, [], some ⟨[], []⟩⟩).2
    (by decide) rfl rfl (Or.inr rfl)

/-! ### Claim C5: processing an element twice is idempotent -/

/-- C5: processing the same element twice with unchanged content is
idempotent: the first successful pass leaves exactly one unit-price block
on the price anchor (a pre-existing block having been removed before
insertion, source lines 950-958), the element identity is counted exactly
once in ProcessedSet, and the second call is a complete no-op (line 687):
no DOM mutation and no state change. -/
theorem process_twice_idempotent (st : ProcState) (card : PropertyCard) (pe : PriceElemCtx)
    (h1 : card.elemId ∉ st.processed) (h2 : card.priceLoc = some pe)
    (h3 : (allAnns pe).length ≤ 1) (h4 : pe.inTable = true ∨ pe.parent.isSome = true) :
    (cardAnns (processProperty st card).2).length = 1 ∧
    (processProperty st card).1.processed.count card.elemId = 1 ∧
    processProperty (processProperty st card).1 (processProperty st card).2 =
      processProperty st card := by
  have h1' : card.elemId ∉
      ((annContentOf st (extractNumber (some pe.text)) (extractNumber card.areaText)).2).processed := by
    rw [annContentOf_processed]
    exact h1
  rw [processProperty_run st card pe h1 h2, processWithPrice]
  rcases htb : pe.inTable with _ | _
  · have hps : (removalStep pe).parent.isSome = true := by
      rw [(removalStep_fields pe).2.2]
      rcases h4 with h4 | h4
      · rw [htb] at h4
        exact absurd h4 (by decide)
      · exact h4
    obtain ⟨par1, hpar1⟩ := Option.isSome_iff_exists.mp hps
    rw [insertAndMark_parent _ card pe _ par1 htb hpar1]
    refine ⟨?_, ?_, ?_⟩
    · rw [cardAnns_update,
        allAnns_consAfter_of_nil _ _ _ hpar1 (removalStep_clears pe h3)]
      rfl
    · exact count_addProcessed_of_not_mem _ _ h1'
    · exact processProperty_skip _ _ (mem_addProcessed_self _ _)
  · rw [insertAndMark_inTable _ card pe _ htb]
    refine ⟨?_, ?_, ?_⟩
    · rw [cardAnns_update,
        allAnns_appendInner_of_nil _ _ (removalStep_clears pe h3)]
      rfl
    · exact count_addProcessed_of_not_mem _ _ h1'
    · exact processProperty_skip _ _ (mem_addProcessed_self _ _)

/-- Witness for `process_twice_idempotent` on a clean card ("5000万円",
area "70㎡", not in a table, parent present, no pre-existing block). -/
theorem process_twice_idempotent_witness :
    (cardAnns (processProperty ⟨[], [], 0⟩
        ⟨3, some ⟨"5000万円", false, [], some ⟨[], []⟩⟩, some "70㎡"⟩).2).length = 1 ∧
    (processProperty ⟨[], [], 0⟩
        ⟨3, some ⟨"5000万円", false, [], some ⟨[], []⟩⟩, some "70㎡"⟩).1.processed.count 3 = 1 ∧
    processProperty
        (processProperty ⟨[], [], 0⟩
          ⟨3, some ⟨"5000万円", false, [], some ⟨[], []⟩⟩, some "70㎡"⟩).1
        (processProperty ⟨[], [], 0⟩
          ⟨3, some ⟨"5000万円", false, [], some ⟨[], []⟩⟩, some "70㎡"⟩).2 =
      processProperty ⟨[], [], 0⟩
        ⟨3, some ⟨"5000万円", false, [], some ⟨[], []⟩⟩, some "70㎡"⟩ :=
  process_twice_idempotent ⟨[], [], 0⟩
    ⟨3, some ⟨"5000万円", false, [], some ⟨[], []⟩⟩, some "70㎡"⟩
    ⟨"5000万円", false, [], some ⟨[], []⟩⟩
    (by decide) rfl (by decide) (Or.inr rfl)

/-! ### Claim C6: the result cache -/

/-- Every cached pair equals what direct recomputation would produce. -/
def cacheWF (c : List ((ℚ × ℚ) × (ℤ × ℤ))) : Prop :=
  ∀ e ∈ c, e.2 = (calculateTsuboPrice e.1.1 e.1.2, calculateHeiheiPrice e.1.1 e.1.2)

/-- C6: on a miss the computed pair is stored under exactly the
`(amount, area)` key and the computation counter advances; on a hit the
stored pair is returned with no state change; under the invariant that
every entry equals direct recomputation (which holds of the empty cache
and is preserved), the returned pair always equals direct recomputation;
and a second invocation with the identical pair returns a bit-identical
pair without redoing the rounding computation (the state, including the
counter, is unchanged). -/
theorem result_cache_contract :
    (∀ st price area, cacheLookup st.cache (price, area) = none →
      cachedCalc st price area =
        ((calculateTsuboPrice price area, calculateHeiheiPrice price area),
         { st with
            cache := ((price, area),
              (calculateTsuboPrice price area, calculateHeiheiPrice price area)) :: st.cache,
            computeCount := st.computeCount + 1 })) ∧
    (∀ st price area pr, cacheLookup st.cache (price, area) = some pr →
      cachedCalc st price area = (pr, st)) ∧
    (∀ st price area, cacheWF st.cache →
      (cachedCalc st price area).1 =
        (calculateTsuboPrice price area, calculateHeiheiPrice price area) ∧
      cacheWF ((cachedCalc st price area).2).cache) ∧
    (∀ st price area,
      cachedCalc ((cachedCalc st price area).2) price area =
        ((cachedCalc st price area).1, (cachedCalc st price area).2)) := by
  have hmiss : ∀ (st : ProcState) (price area : ℚ),
      cacheLookup st.cache (price, area) = none →
      cachedCalc st price area =
        ((calculateTsuboPrice price area, calculateHeiheiPrice price area),
         { st with
            cache := ((price, area),
              (calculateTsuboPrice price area, calculateHeiheiPrice price area)) :: st.cache,
            computeCount := st.computeCount + 1 }) := by
    intro st price area h
    rw [cachedCalc, h]
  have hhit : ∀ (st : ProcState) (price area : ℚ) (pr : ℤ × ℤ),
      cacheLookup st.cache (price, area) = some pr →
      cachedCalc st price area = (pr, st) := by
    intro st price area pr h
    rw [cachedCalc, h]
  have hlook : ∀ (st : ProcState) (price area : ℚ) (pr : ℤ × ℤ),
      cacheLookup st.cache (price, area) = some pr → cacheWF st.cache →
      pr = (calculateTsuboPrice price area, calculateHeiheiPrice price area) := by
    intro st price area pr h hwf
    unfold cacheLookup at h
    obtain ⟨e, hfind, he2⟩ := Option.map_eq_some'.mp h
    have hkey : e.1 = (price, area) := by
      have hpred := List.find?_some hfind
      simpa using hpred
    have := hwf e (List.mem_of_find?_eq_some hfind)
    rw [hkey] at this
    rw [← he2, this]
  refine ⟨hmiss, hhit, ?_, ?_⟩
  · intro st price area hwf
    rcases hl : cacheLookup st.cache (price, area) with _ | pr
    · rw [hmiss st price area hl]
      constructor
      · rfl
      · intro e he
        rcases List.mem_cons.mp he with he | he
        · rw [he]
        · exact hwf e he
    · rw [hhit st price area pr hl]
      exact ⟨(hlook st price area pr hl hwf).symm ▸ rfl, hwf⟩
  · intro st price area
    rcases hl : cacheLookup st.cache (price, area) with _ | pr
    · rw [hmiss st price area hl]
      have hfound : cacheLookup
          (((price, area), (calculateTsuboPrice price area, calculateHeiheiPrice price area))
            :: st.cache) (price, area) =
          some (calculateTsuboPrice price area, calculateHeiheiPrice price area) := by
        unfold cacheLookup
        rw [List.find?_cons_of_pos _ (by simp)]
        rfl
      exact hhit _ price area _ hfound
    · rw [hhit st price area pr hl]
      exact hhit st price area pr hl

/-- Witness for `result_cache_contract`: a miss on the empty cache for the
pair (25990, 70), a hit on a one-entry cache, the invariant on the empty
cache, and the second-invocation no-op. -/
theorem result_cache_contract_witness :
    cachedCalc ⟨[], [], 0⟩ 25990 70 =
      ((calculateTsuboPrice 25990 70, calculateHeiheiPrice 25990 70),
       ⟨[], [((25990, 70), (calculateTsuboPrice 25990 70, calculateHeiheiPrice 25990 70))], 1⟩) ∧
    cachedCalc ⟨[], [((2, 1), (7, 2))], 5⟩ 2 1 = ((7, 2), ⟨[], [((2, 1), (7, 2))], 5⟩) ∧
    ((cachedCalc ⟨[], [], 0⟩ 25990 70).1 =
      (calculateTsuboPrice 25990 70, calculateHeiheiPrice 25990 70) ∧
     cacheWF ((cachedCalc ⟨[], [], 0⟩ 25990 70).2).cache) ∧
    cachedCalc ((cachedCalc ⟨[], [], 0⟩ 25990 70).2) 25990 70 =
      ((cachedCalc ⟨[], [], 0⟩ 25990 70).1, (cachedCalc ⟨[], [], 0⟩ 25990 70).2) :=
  ⟨result_cache_contract.1 ⟨[], [], 0⟩ 25990 70 rfl,
   result_cache_contract.2.1 ⟨[], [((2, 1), (7, 2))], 5⟩ 2 1 (7, 2)
     (by with_unfolding_all rfl),
   result_cache_contract.2.2.1 ⟨[], [], 0⟩ 25990 70 (by intro e he; exact absurd he (by simp)),
   result_cache_contract.2.2.2 ⟨[], [], 0⟩ 25990 70⟩

/-! ### Claim C8: the mutation-observer filter (source lines 1259-1288) -/

/-- An added DOM node as the observer callback inspects it: its
`nodeType`, and its `classList` (`none` when the node lacks one: the
optional chain then yields `undefined`, which `!` turns into a trigger). -/
structure MutNode where
  nodeType : ℕ
  classList : Option (List String)
deriving DecidableEq, Repr

/-- One MutationRecord, reduced to the `addedNodes` the callback reads. -/
structure MutationRecord where
  addedNodes : List MutNode
deriving DecidableEq, Repr

/-- `node.classList?.contains('suumo-unit-price')`, with `undefined`
(missing classList) read as false by the surrounding `!`. -/
def classListHasAnn (n : MutNode) : Bool :=
  match n.classList with
  | some l => l.contains "suumo-unit-price"
  | none => false

/-- Source line 1269: `node.nodeType === 1 &&
!node.classList?.contains('suumo-unit-price')`. -/
def nodeTriggers (n : MutNode) : Bool :=
  n.nodeType == 1 && !classListHasAnn n

/-- Source lines 1262-1276: scan the batch for an added node the system
did not insert itself; the early `break`s observe the same as `any`. -/
def shouldProcessMutations (ms : List MutationRecord) : Bool :=
  ms.any (fun m => decide (0 < m.addedNodes.length) && m.addedNodes.any nodeTriggers)

/-- C8: the observer callback triggers a reprocessing pass iff some
observed record contains an added element node (`nodeType` 1) that does
not carry the `suumo-unit-price` class; in particular, a batch consisting
solely of the system's own annotation blocks never re-triggers
processing. -/
theorem observer_filter_iff :
    (∀ ms : List MutationRecord,
      shouldProcessMutations ms = true ↔
        ∃ m ∈ ms, ∃ n ∈ m.addedNodes, n.nodeType = 1 ∧ classListHasAnn n = false) ∧
    (∀ ms : List MutationRecord,
      (∀ m ∈ ms, ∀ n ∈ m.addedNodes, ∃ l, n.classList = some l ∧ "suumo-unit-price" ∈ l) →
      shouldProcessMutations ms = false) := by
  have hiff : ∀ ms : List MutationRecord,
      shouldProcessMutations ms = true ↔
        ∃ m ∈ ms, ∃ n ∈ m.addedNodes, n.nodeType = 1 ∧ classListHasAnn n = false := by
    intro ms
    rw [shouldProcessMutations, List.any_eq_true]
    constructor
    · rintro ⟨m, hm, hb⟩
      rw [Bool.and_eq_true, List.any_eq_true] at hb
      obtain ⟨-, n, hn, ht⟩ := hb
      rw [nodeTriggers, Bool.and_eq_true, Bool.not_eq_true'] at ht
      exact ⟨m, hm, n, hn, by simpa using ht.1, ht.2⟩
    · rintro ⟨m, hm, n, hn, h1, h2⟩
      refine ⟨m, hm, ?_⟩
      rw [Bool.and_eq_true, List.any_eq_true]
      refine ⟨by simpa using List.length_pos_of_mem hn, n, hn, ?_⟩
      rw [nodeTriggers, Bool.and_eq_true, Bool.not_eq_true']
      exact ⟨by simpa using h1, h2⟩
  refine ⟨hiff, ?_⟩
  intro ms hall
  by_contra hne
  rw [Bool.not_eq_false] at hne
  obtain ⟨m, hm, n, hn, -, h2⟩ := (hiff ms).mp hne
  obtain ⟨l, hl, hmem⟩ := hall m hm n hn
  have hc : classListHasAnn n = true := by
    rw [classListHasAnn, hl]
    exact List.elem_eq_true_of_mem hmem
  rw [hc] at h2
  cases h2

/-- Witness for `observer_filter_iff`: a batch whose only added node is an
inserted annotation block does not re-trigger processing. -/
theorem observer_filter_iff_witness :
    shouldProcessMutations [⟨[⟨1, some ["suumo-unit-price"]⟩]⟩] = false :=
  observer_filter_iff.2 [⟨[⟨1, some ["suumo-unit-price"]⟩]⟩]
    (by
      intro m hm n hn
      rw [List.mem_singleton] at hm
      subst hm
      rw [List.mem_singleton] at hn
      subst hn
      exact ⟨["suumo-unit-price"], rfl, by simp⟩)

/-! ### Claim C9: card-root enumeration (source lines 991-1017) -/

/-- A document element for card enumeration: identity, tag, the `class`
attribute string, and the structural facts the HOMES branch inspects
(being a `.bukkenSpec table` descendant, a `.unitSummary tbody tr`, and
containing `td.price` / `td.space`). -/
structure DocElem where
  deid : ℕ
  tag : String
  classAttr : String
  underBukkenSpec : Bool
  underUnitSummaryTbody : Bool
  hasTdPrice : Bool
  hasTdSpace : Bool
deriving DecidableEq, Repr

/-- Whitespace-split tokens of a class attribute (accumulator reversed). -/
def tokensAux (acc : List Char) : List Char → List (List Char)
  | [] => if acc.isEmpty then [] else [acc.reverse]
  | c :: r =>
    if c = ' ' then (if acc.isEmpty then tokensAux [] r else acc.reverse :: tokensAux [] r)
    else tokensAux (c :: acc) r

/-- The class tokens of a class attribute, for `.foo` selector matching. -/
def classTokens (attr : List Char) : List (List Char) := tokensAux [] attr

/-- The selector alternatives used for card enumeration: a class selector
`.c` or a substring attribute selector `[class*="sub"]`. -/
inductive CSel where
  | cls : String → CSel
  | clsContains : String → CSel
deriving DecidableEq, Repr

/-- CSS matching: `.c` matches when `c` is a class token; `[class*=sub]`
matches when `sub` is a substring of the whole attribute value. -/
def matchesSel (e : DocElem) : CSel → Bool
  | CSel.cls c => decide (c.data ∈ classTokens e.classAttr.data)
  | CSel.clsContains sub => containsSub sub.data e.classAttr.data

/-- `document.querySelectorAll` with a comma-separated selector list: the
elements matching ANY alternative, in document order (one merged set). -/
def qsaList (doc : List DocElem) (sels : List CSel) : List DocElem :=
  doc.filter (fun e => sels.any (matchesSel e))

/-- The SUUMO/default card selector list (source line 1008):
`.cassetteitem, .dottable--cassette, [class*="cassette"]`. -/
def suumoCardSels : List CSel :=
  [CSel.cls "cassetteitem", CSel.cls "dottable--cassette", CSel.clsContains "cassette"]

/-- SUUMO/default card enumeration (source line 1008): one
`querySelectorAll` over the selector list. -/
def suumoCards (doc : List DocElem) : List DocElem := qsaList doc suumoCardSels

/-- HOMES standard cards (source lines 998-1001): the `.bukkenSpec table`
elements filtered to those containing both `td.price` and `td.space`. -/
def homesStandardCards (doc : List DocElem) : List DocElem :=
  (doc.filter (fun e => e.underBukkenSpec && (e.tag == "table"))).filter
    (fun t => t.hasTdPrice && t.hasTdSpace)

/-- HOMES grouped cards (source line 1004): `.unitSummary tbody tr`. -/
def homesGroupedCards (doc : List DocElem) : List DocElem :=
  doc.filter (fun e => e.underUnitSummaryTbody && (e.tag == "tr"))

/-- HOMES enumeration (source line 1006):
`[...standardCards, ...groupedCards]`. -/
def homesCards (doc : List DocElem) : List DocElem :=
  homesStandardCards doc ++ homesGroupedCards doc

/-- Modelled from the spec (§4.6): "tries each locator, first non-empty
result set wins" — the enumeration the claim asserts, stated for
comparison against the code's selector-list query. -/
def specCardsFirstNonEmpty (doc : List DocElem) : List CSel → List DocElem
  | [] => []
  | s :: rest =>
    if (doc.filter (fun e => matchesSel e s)).isEmpty then specCardsFirstNonEmpty doc rest
    else doc.filter (fun e => matchesSel e s)

theorem isPrefixOf_append_self (n t : List Char) : n.isPrefixOf (n ++ t) = true := by
  induction n with
  | nil => cases t <;> rfl
  | cons c nr ih =>
    show (c == c && nr.isPrefixOf (nr ++ t)) = true
    simp [ih]

theorem containsSub_parts (n hay : List Char) (hne : n ≠ [])
    (h : ∃ pre post, hay = pre ++ n ++ post) : containsSub n hay = true := by
  obtain ⟨pre, post, rfl⟩ := h
  induction pre with
  | nil =>
    rcases n with _ | ⟨c, nr⟩
    · exact absurd rfl hne
    · rw [containsSub, List.nil_append, List.cons_append, dropAfterFirst]
      rw [if_pos (by rw [← List.cons_append]; exact isPrefixOf_append_self (c :: nr) post)]
      rfl
  | cons c0 pr ih =>
    rw [containsSub, List.cons_append, List.cons_append, dropAfterFirst]
    split
    · rfl
    · exact ih

theorem tokensAux_split (w : List Char) :
    ∀ l acc : List Char, w ∈ tokensAux acc l → ∃ l1 l2, acc.reverse ++ l = l1 ++ w ++ l2 := by
  intro l
  induction l with
  | nil =>
    intro acc hw
    rw [tokensAux] at hw
    split at hw
    · exact absurd hw (by simp)
    · rw [List.mem_singleton] at hw
      exact ⟨[], [], by rw [hw]; simp⟩
  | cons c r ih =>
    intro acc hw
    rw [tokensAux] at hw
    split at hw
    · split at hw
      · obtain ⟨l1, l2, he⟩ := ih [] hw
        rw [List.reverse_nil, List.nil_append] at he
        exact ⟨acc.reverse ++ [c] ++ l1, l2, by rw [he]; simp⟩
      · rcases List.mem_cons.mp hw with hw | hw
        · exact ⟨[], c :: r, by rw [hw]; simp⟩
        · obtain ⟨l1, l2, he⟩ := ih [] hw
          rw [List.reverse_nil, List.nil_append] at he
          exact ⟨acc.reverse ++ [c] ++ l1, l2, by rw [he]; simp⟩
    · obtain ⟨l1, l2, he⟩ := ih (c :: acc) hw
      refine ⟨l1, l2, ?_⟩
      rw [← he]
      simp

theorem classTokens_split (w attr : List Char) (h : w ∈ classTokens attr) :
    ∃ l1 l2, attr = l1 ++ w ++ l2 := by
  obtain ⟨l1, l2, he⟩ := tokensAux_split w attr [] h
  rw [List.reverse_nil, List.nil_append] at he
  exact ⟨l1, l2, he⟩

/-- The `.cassetteitem` class selector is subsumed by
`[class*="cassette"]`: a class token is a substring of the attribute. -/
theorem cls_cassetteitem_subsumed (e : DocElem)
    (h : matchesSel e (CSel.cls "cassetteitem") = true) :
    matchesSel e (CSel.clsContains "cassette") = true := by
  simp only [matchesSel] at h ⊢
  obtain ⟨l1, l2, he⟩ := classTokens_split _ _ (of_decide_eq_true h)
  apply containsSub_parts _ _ (by decide)
  refine ⟨l1, "item".data ++ l2, ?_⟩
  rw [he]
  simp

/-- The `.dottable--cassette` class selector is likewise subsumed. -/
theorem cls_dottable_subsumed (e : DocElem)
    (h : matchesSel e (CSel.cls "dottable--cassette") = true) :
    matchesSel e (CSel.clsContains "cassette") = true := by
  simp only [matchesSel] at h ⊢
  obtain ⟨l1, l2, he⟩ := classTokens_split _ _ (of_decide_eq_true h)
  apply containsSub_parts _ _ (by decide)
  refine ⟨l1 ++ "dottable--".data, l2, ?_⟩
  rw [he]
  simp

/-- C9, counterexample: a document with one `.cassetteitem` card and one
`.dottable--cassette` card.  The code's single selector-list query returns
both cards (a merged result set), whereas first-non-empty-locator-wins
would return only the `.cassetteitem` one. -/
theorem card_enumeration_counterexample :
    suumoCards
        [⟨0, "div", "cassetteitem", false, false, false, false⟩,
         ⟨1, "div", "dottable--cassette", false, false, false, false⟩] ≠
      specCardsFirstNonEmpty
        [⟨0, "div", "cassetteitem", false, false, false, false⟩,
         ⟨1, "div", "dottable--cassette", false, false, false, false⟩] suumoCardSels := by
  decide

/-- C9 (amended): card-root enumeration evaluates the profile's card
locator as ONE selector-list query whose result merges the matches of all
alternatives in document order — no first-non-empty precedence between
alternatives; for the SUUMO list the generic `[class*="cassette"]`
alternative subsumes both class selectors, so the merge equals the
generic filter; only for HOMES (the compound card type) is a union of two
separately computed result sets taken (by concatenation). -/
theorem card_enumeration_merges :
    (∀ doc : List DocElem,
      suumoCards doc = doc.filter (fun e =>
        matchesSel e (CSel.cls "cassetteitem") || matchesSel e (CSel.cls "dottable--cassette") ||
        matchesSel e (CSel.clsContains "cassette"))) ∧
    (∀ doc : List DocElem,
      suumoCards doc = doc.filter (fun e => matchesSel e (CSel.clsContains "cassette"))) ∧
    (∀ (doc : List DocElem) (e : DocElem),
      e ∈ homesCards doc ↔ e ∈ homesStandardCards doc ∨ e ∈ homesGroupedCards doc) := by
  refine ⟨?_, ?_, ?_⟩
  · intro doc
    rw [suumoCards, qsaList]
    apply List.filter_congr
    intro e _
    rw [suumoCardSels]
    simp [List.any_cons, List.any_nil, Bool.or_assoc]
  · intro doc
    rw [suumoCards, qsaList]
    apply List.filter_congr
    intro e _
    rw [suumoCardSels]
    simp only [List.any_cons, List.any_nil, Bool.or_false]
    rcases h3 : matchesSel e (CSel.clsContains "cassette") with _ | _
    · have h1 : matchesSel e (CSel.cls "cassetteitem") = false := by
        by_contra hc
        rw [Bool.not_eq_false] at hc
        rw [cls_cassetteitem_subsumed e hc] at h3
        cases h3
      have h2 : matchesSel e (CSel.cls "dottable--cassette") = false := by
        by_contra hc
        rw [Bool.not_eq_false] at hc
        rw [cls_dottable_subsumed e hc] at h3
        cases h3
      rw [h1, h2]
      rfl
    · simp
  · intro doc e
    rw [homesCards]
    exact List.mem_append
